import Mathlib

/-!
Verification development for the UC Theatre event scraper
(`scrape_uc_events.py`).  The extraction engine (`parse_event_blocks`),
the fingerprint dedup, and the reconciliation engine
(`find_existing_event` / `upsert_event` / `main`) are shallowly embedded
below.  Modelling conventions:

* Every string the code reads from the HTML document is carried in a
  `Block` record, one field per BeautifulSoup traversal the source
  performs (`find_all_previous`, `find_next_siblings`, `find_all` on
  headings, `find(string=...)` for the Show/Doors labels).
* Python `re.search` calls are embedded as explicit leftmost-match
  character scanners with the same backtracking behaviour as the
  original patterns.  Character classes are modelled over ASCII (the
  strings the code manipulates).
* `datetime` values are modelled as wall-clock records in the single
  configured time zone; instants are mapped to seconds on a linear
  Gregorian timeline (`toSecs`).  Daylight-saving offsets shift entire
  runs by a constant in the window sizes involved here and are not
  modelled.
* The SHA-1 fingerprint is modelled as an injective function of its
  pre-image string `title ++ "|" ++ isoformat(start)`; hash collisions
  are ignored, as the spec itself assumes.
* Python exceptions (the uncaught `ValueError` of `strptime`, the
  per-event `try/except` of `main`) are embedded with `Except` and an
  explicit external-failure oracle respectively.
-/

/-- Python `\w` over ASCII: letters, digits, underscore. -/
def isWordChar (c : Char) : Bool := c.isAlphanum || c == '_'

/-- Python `\s` over ASCII: space, tab, newline, carriage return, vertical tab, form feed. -/
def isSpaceB (c : Char) : Bool :=
  c == ' ' || c == '\t' || c == '\n' || c == '\r' || c == Char.ofNat 11 || c == Char.ofNat 12

/-- Value of an ASCII digit. -/
def digitVal (c : Char) : Nat := c.toNat - 48

/-- Bool test whether `pat` occurs as a contiguous substring of `hay`
(model of Python `in` on strings). -/
def hasSubList : List Char → List Char → Bool
  | [], pat => pat.isEmpty
  | c :: t, pat => pat.isPrefixOf (c :: t) || hasSubList t pat

/-- Python `pat in s` for strings. -/
def containsSub (s pat : String) : Bool := hasSubList s.toList pat.toList

/-- Python `str.isprintable`, modelled over the ASCII range: every character
is a printable ASCII character (32..126). -/
def isPrintableA (s : String) : Bool := s.toList.all (fun c => 32 ≤ c.toNat && c.toNat ≤ 126)

/-- Python `str.strip()` over ASCII whitespace. -/
def stripStr (s : String) : String :=
  String.mk (((s.toList.dropWhile isSpaceB).reverse.dropWhile isSpaceB).reverse)

/-- Python `str.lower()` (ASCII). -/
def lowerStr (s : String) : String := String.mk (s.toList.map Char.toLower)

/-- Python `str.upper()` (ASCII). -/
def upperStr (s : String) : String := String.mk (s.toList.map Char.toUpper)

/-- Split a character list at every occurrence of `sep`. -/
def splitOnChar (sep : Char) : List Char → List (List Char)
  | [] => [[]]
  | c :: rest =>
    let r := splitOnChar sep rest
    if c == sep then [] :: r
    else
      match r with
      | [] => [[c]]
      | seg :: segs => (c :: seg) :: segs

/-- Python `sep.join(parts)`. -/
def joinSep (sep : String) : List String → String
  | [] => ""
  | [x] => x
  | x :: xs => x ++ sep ++ joinSep sep xs

/-- Python `len(s.splitlines())`, for line breaks written `\n` (the only
line separator appearing in the modelled strings): a trailing newline
does not open a new line. -/
def linesCount (s : String) : Nat :=
  if s == "" then 0
  else if s.toList.getLast? == some '\n' then (splitOnChar '\n' s.toList).length - 1
  else (splitOnChar '\n' s.toList).length

/-- Case-insensitive string equality after trimming, as in
`it_summary.strip().lower() == title.strip().lower()`. -/
def eqT (a b : String) : Bool := lowerStr (stripStr a) == lowerStr (stripStr b)

/-- Gregorian leap year, as implemented by Python `datetime`. -/
def isLeap (y : Nat) : Bool := y % 4 == 0 && (y % 100 != 0 || y % 400 == 0)

/-- Length of a month, as validated by the `datetime` constructor. -/
def daysInMonth (y m : Nat) : Nat :=
  if m == 2 then (if isLeap y then 29 else 28)
  else if m == 4 || m == 6 || m == 9 || m == 11 then 30
  else 31

/-- Days in all years before `y` (proleptic Gregorian, linear timeline):
365 per year plus one per leap year in `[0, y)`, counted in closed form. -/
def daysBeforeYear (y : Nat) : Nat :=
  365 * y + ((y + 3) / 4 - (y + 99) / 100 + (y + 399) / 400)

/-- Days in the months of year `y` strictly before month `m`. -/
def daysBeforeMonth (y m : Nat) : Nat :=
  (List.range (m - 1)).foldl (fun a i => a + daysInMonth y (i + 1)) 0

/-- A timezone-aware local timestamp in the single configured zone
(`America/Los_Angeles`), at the minute granularity the scraper produces. -/
structure LDT where
  year : Nat
  month : Nat
  day : Nat
  hour : Nat
  minute : Nat
deriving DecidableEq, Repr

/-- Seconds of a local timestamp on the linear Gregorian timeline. -/
def toSecs (t : LDT) : Nat :=
  ((daysBeforeYear t.year + daysBeforeMonth t.year t.month + (t.day - 1)) * 24 + t.hour) * 3600
    + t.minute * 60

/-- `toSecs` as an integer, for window arithmetic. -/
def toSecsZ (t : LDT) : Int := (toSecs t : Int)

/-- Zero-pad to two digits (`f"{n:02d}"`). -/
def pad2 (n : Nat) : String := if n < 10 then "0" ++ toString n else toString n

/-- Zero-pad to four digits (the year field of `datetime.isoformat`). -/
def pad4 (n : Nat) : String :=
  if n < 10 then "000" ++ toString n
  else if n < 100 then "00" ++ toString n
  else if n < 1000 then "0" ++ toString n
  else toString n

/-- `start.isoformat()` for the scraper's minute-granularity timestamps.
The constant UTC-offset suffix of the aware `datetime` is a function of
the fixed configured zone and is omitted, adding no identity information. -/
def isoStr (t : LDT) : String :=
  pad4 t.year ++ "-" ++ pad2 t.month ++ "-" ++ pad2 t.day ++ "T" ++ pad2 t.hour ++ ":"
    ++ pad2 t.minute ++ ":00"

/-- An extracted event, the dict built at lines 203-213 of the source. -/
structure ExtractedEvent where
  title : String
  start : LDT
  description : String
  ticket_url : Option String
  private_id : String
deriving DecidableEq, Repr

/-- Event construction: title is `title.strip()`, description starts empty,
`ticket_url` carries the (never assigned) `ticket_url` variable, and
`private_id` is the SHA-1 fingerprint of `f"{title}|{start.isoformat()}"`,
modelled injectively by its pre-image. -/
def mkEvent (rawTitle : String) (start : LDT) : ExtractedEvent :=
  { title := stripStr rawTitle
    start := start
    description := ""
    ticket_url := none
    private_id := stripStr rawTitle ++ "|" ++ isoStr start }

/-! ### Regular-expression models

Each scanner below embeds one `re.search` of the source, as a
leftmost-match scan with the original pattern's backtracking order. -/

/-- Canonical month names, in the order of the `MONTHS` dict (line 130). -/
def monthNames : List String :=
  ["Jan", "Feb", "Mar", "Apr", "May", "Jun", "Jul", "Aug", "Sep", "Oct", "Nov", "Dec"]

/-- The upper-cased month abbreviations rejected by the title heuristic
(line 104), in source order. -/
def MONTH_UP : List String :=
  ["DEC", "JAN", "FEB", "MAR", "APR", "MAY", "JUN", "JUL", "AUG", "SEP", "OCT", "NOV"]

/-- `MONTHS[month]`: 1-based index of a canonical month name. -/
def monthNum (m : String) : Nat := monthNames.indexOf m + 1

/-- Case-insensitive prefix test (`re.IGNORECASE`). -/
def ciStarts : List Char → List Char → Bool
  | [], _ => true
  | _ :: _, [] => false
  | p :: ps, c :: cs => p.toLower == c.toLower && ciStarts ps cs

/-- A `\b` boundary directly after a token: end of input or a non-word char. -/
def boundaryAfter : List Char → Bool
  | [] => true
  | c :: _ => !isWordChar c

/-- Match `(Jan|Feb|...|Dec)\b` case-insensitively at the current position,
returning the canonical (`.title()`-cased) name. -/
def monthAtPos (cs : List Char) : Option String :=
  monthNames.find? (fun nm => ciStarts nm.toList cs && boundaryAfter (cs.drop 3))

/-- Leftmost match of `\b(Jan|...|Dec)\b` (line 147); `prev` is the character
before the current position, for the leading `\b`. -/
def scanMonth : Option Char → List Char → Option String
  | _, [] => none
  | prev, c :: rest =>
    let bok := match prev with
      | none => true
      | some p => !isWordChar p
    match (if bok then monthAtPos (c :: rest) else none) with
    | some nm => some nm
    | none => scanMonth (some c) rest

/-- `re.search(r"\b(Jan|...|Dec)\b", big, re.IGNORECASE)` followed by `.title()`. -/
def findMonth (s : String) : Option String := scanMonth none s.toList

/-- Match `[0-3]?\d\b` at the current position (greedy two-digit branch first,
then the one-digit backtrack), returning the numeric value. -/
def dayAtPos : List Char → Option Nat
  | [] => none
  | [c1] => if c1.isDigit then some (digitVal c1) else none
  | c1 :: c2 :: rest =>
    if c1.isDigit && c1.toNat ≤ 51 && c2.isDigit && boundaryAfter rest then
      some (digitVal c1 * 10 + digitVal c2)
    else if c1.isDigit && !isWordChar c2 then some (digitVal c1)
    else none

/-- Leftmost match of `\b([0-3]?\d)\b` (line 151) with `int(...)` applied. -/
def scanDay : Option Char → List Char → Option Nat
  | _, [] => none
  | prev, c :: rest =>
    let bok := match prev with
      | none => true
      | some p => !isWordChar p
    match (if bok then dayAtPos (c :: rest) else none) with
    | some d => some d
    | none => scanDay (some c) rest

/-- `re.search(r"\b([0-3]?\d)\b", big)` with `int(...)` applied. -/
def findDay (s : String) : Option Nat := scanDay none s.toList

/-- Match `20[2-9]\d\b` at the current position, returning the numeric value. -/
def yearAtPos : List Char → Option Nat
  | c1 :: c2 :: c3 :: c4 :: rest =>
    if c1 == '2' && c2 == '0' && c3.isDigit && 50 ≤ c3.toNat && c4.isDigit
        && boundaryAfter rest then
      some (2000 + digitVal c3 * 10 + digitVal c4)
    else none
  | _ => none

/-- Leftmost match of `\b(20[2-9]\d)\b` (line 156) with `int(...)` applied. -/
def scanYear : Option Char → List Char → Option Nat
  | _, [] => none
  | prev, c :: rest =>
    let bok := match prev with
      | none => true
      | some p => !isWordChar p
    match (if bok then yearAtPos (c :: rest) else none) with
    | some y => some y
    | none => scanYear (some c) rest

/-- `re.search(r"\b(20[2-9]\d)\b", big)` with `int(...)` applied. -/
def findYear (s : String) : Option Nat := scanYear none s.toList

/-- Modelled from the spec (C6 wording only): a plain "explicit 4-digit year"
reader, i.e. the leftmost `\b\d\d\d\d\b` token.  Used solely to compare the
spec's phrase against the source's `findYear`, which is the authority. -/
def yearLiteralAtPos : List Char → Option Nat
  | c1 :: c2 :: c3 :: c4 :: rest =>
    if c1.isDigit && c2.isDigit && c3.isDigit && c4.isDigit && boundaryAfter rest then
      some (digitVal c1 * 1000 + digitVal c2 * 100 + digitVal c3 * 10 + digitVal c4)
    else none
  | _ => none

/-- Modelled from the spec (C6 wording only): leftmost 4-digit token scan. -/
def scanYearLiteral : Option Char → List Char → Option Nat
  | _, [] => none
  | prev, c :: rest =>
    let bok := match prev with
      | none => true
      | some p => !isWordChar p
    match (if bok then yearLiteralAtPos (c :: rest) else none) with
    | some y => some y
    | none => scanYearLiteral (some c) rest

/-- Modelled from the spec (C6 wording only): "explicit 4-digit year present". -/
def findYearLiteral (s : String) : Option Nat := scanYearLiteral none s.toList

/-- Tail of the time pattern after the hour digits:
`(?::[0-5]\d)?\s*(?:am|pm)`, greedy minutes group with backtracking.
Returns the matched characters. -/
def timeTail (cs : List Char) : Option (List Char) :=
  let wsAmPm : List Char → Option (List Char) := fun cs' =>
    let ws := cs'.takeWhile isSpaceB
    match cs'.dropWhile isSpaceB with
    | a :: b :: _ =>
      if (a.toLower == 'a' || a.toLower == 'p') && b.toLower == 'm' then some (ws ++ [a, b])
      else none
    | _ => none
  match cs with
  | ':' :: m1 :: m2 :: rest =>
    if m1.isDigit && m1.toNat ≤ 53 && m2.isDigit then
      match wsAmPm rest with
      | some t => some (':' :: m1 :: m2 :: t)
      | none => wsAmPm cs
    else wsAmPm cs
  | _ => wsAmPm cs

/-- Match `[0-1]?\d(?::[0-5]\d)?\s*(?:am|pm)` at the current position
(greedy two-digit hour first, then the one-digit backtrack), returning the
matched characters — the model of `tmatch.group(1)`. -/
def timeAtPos : List Char → Option (List Char)
  | [] => none
  | [_] => none
  | c1 :: c2 :: rest =>
    if (c1 == '0' || c1 == '1') && c2.isDigit then
      match timeTail rest with
      | some t => some (c1 :: c2 :: t)
      | none => (timeTail (c2 :: rest)).map (c1 :: ·)
    else if c1.isDigit then (timeTail (c2 :: rest)).map (c1 :: ·)
    else none

/-- Leftmost scan for the time pattern. -/
def timeScan : List Char → Option (List Char)
  | [] => none
  | c :: rest =>
    match timeAtPos (c :: rest) with
    | some t => some t
    | none => timeScan rest

/-- `parse_time_from_text` (lines 170-177): extract a 12-hour clock
expression, or `None`. -/
def parse_time_from_text (s : String) : Option String :=
  (timeScan s.toList).map (fun cs => String.mk cs)

/-! ### `strptime` model

`datetime.strptime(dt_text, "%Y-%m-%d %I:%M %p")` with a fallback to
`"%Y-%m-%d %I %p"` (lines 193-200).  The date part of `dt_text` is the
f-string `f"{year}-{month_num:02d}-{int(day):02d}"`; its validity under
`%Y`/`%m`/`%d` and the `datetime` constructor is captured by `dateOKb`.
The time part is the regex-extracted time string; `CPython`'s `%I` accepts
`1[0-2]|0[1-9]|[1-9]`, `%M` accepts `[0-5]\d|\d`, a literal space in the
format requires one or more whitespace characters, and `%p` accepts
`am|pm` case-insensitively at the end of the string. -/

/-- Alternation results of `%I` at the head of `cs`, in regex order. -/
def hourCands (cs : List Char) : List (Nat × List Char) :=
  (match cs with
   | c1 :: c2 :: rest =>
     (if c1 == '1' && c2.isDigit && c2.toNat ≤ 50 then [(10 + digitVal c2, rest)] else [])
       ++ (if c1 == '0' && c2.isDigit && 49 ≤ c2.toNat then [(digitVal c2, rest)] else [])
   | _ => [])
    ++ (match cs with
        | c1 :: rest => if c1.isDigit && 49 ≤ c1.toNat then [(digitVal c1, rest)] else []
        | [] => [])

/-- Alternation results of `%M` at the head of `cs`, in regex order. -/
def minuteCands (cs : List Char) : List (Nat × List Char) :=
  (match cs with
   | c1 :: c2 :: rest =>
     if c1.isDigit && c1.toNat ≤ 53 && c2.isDigit then [(digitVal c1 * 10 + digitVal c2, rest)]
     else []
   | _ => [])
    ++ (match cs with
        | c1 :: rest => if c1.isDigit then [(digitVal c1, rest)] else []
        | [] => [])

/-- A literal format-string space: `\s+` (one or more whitespace). -/
def wsPlus : List Char → Option (List Char)
  | [] => none
  | c :: rest => if isSpaceB c then some ((c :: rest).dropWhile isSpaceB) else none

/-- `%p` at the end of the input: `am`/`pm` case-insensitively, then EOF. -/
def ampmEnd : List Char → Option Bool
  | [a, m] =>
    if m.toLower == 'm' then
      if a.toLower == 'a' then some false
      else if a.toLower == 'p' then some true
      else none
    else none
  | _ => none

/-- Time grammar `%I:%M %p` over the whole string: 12-hour clock with minutes. -/
def grammarHMM (cs : List Char) : Option (Nat × Nat × Bool) :=
  (hourCands cs).findSome? fun hc =>
    match hc.2 with
    | ':' :: r2 =>
      (minuteCands r2).findSome? fun mc =>
        (wsPlus mc.2).bind fun r3 => (ampmEnd r3).map fun pm => (hc.1, mc.1, pm)
    | _ => none

/-- Time grammar `%I %p` over the whole string: 12-hour clock without minutes. -/
def grammarH (cs : List Char) : Option (Nat × Nat × Bool) :=
  (hourCands cs).findSome? fun hc =>
    (wsPlus hc.2).bind fun r2 => (ampmEnd r2).map fun pm => (hc.1, 0, pm)

/-- 12-hour to 24-hour conversion (`%p` semantics). -/
def to24 (h : Nat) (pm : Bool) : Nat :=
  if pm then (if h == 12 then 12 else h + 12) else (if h == 12 then 0 else h)

/-- The two `strptime` attempts on the extracted time string: the `%I:%M %p`
grammar, then the `%I %p` grammar; `none` is the uncaught `ValueError`. -/
def strptime12 (s : String) : Option (Nat × Nat) :=
  match grammarHMM s.toList with
  | some (h, mi, pm) => some (to24 h pm, mi)
  | none =>
    match grammarH s.toList with
    | some (h, _, pm) => some (to24 h pm, 0)
    | none => none

/-- Validity of the f-string date part under `%Y`/`%m`/`%d` plus the
`datetime` constructor: a 4-digit year and a day the month contains. -/
def dateOKb (y mn d : Nat) : Bool :=
  1000 ≤ y && y ≤ 9999 && 1 ≤ d && d ≤ 31 && d ≤ daysInMonth y mn

/-! ### Document blocks and field extraction -/

/-- One event block, as seen through the Document Model: each field holds
the strings one BeautifulSoup traversal of the source would return for the
block's `container`.

* `prevTexts`: `get_text(strip=True)` of `container.find_all_previous()`
  elements, nearest first (the title scan takes 10, the date scan 30);
* `nextSibTexts`: `get_text(strip=True)` of `container.find_next_siblings()`;
* `headingTexts`: `get_text(strip=True)` of the `h1`-`h4` descendants;
* `linkHrefs`: the `href` values of link tags in or near the block — present
  in the document, never consulted by `parse_event_blocks`;
* `showText`/`doorsText`: `str(...)` of the first descendant string
  containing `"Show:"` / `"Doors:"`, if any. -/
structure Block where
  prevTexts : List String
  nextSibTexts : List String
  headingTexts : List String
  linkHrefs : List String
  showText : Option String
  doorsText : Option String
deriving DecidableEq, Repr

/-- Title acceptance in the preceding-node scan (lines 99-110): non-empty,
longer than 2, printable, not an anchor-phrase carrier or month
abbreviation, longer than 5 and spanning at most two lines.  All rejecting
branches of the loop `continue`, so acceptance is one conjunction. -/
def acceptPrev (txt : String) : Bool :=
  !(txt == "") && txt.length > 2 && isPrintableA txt
    && !containsSub txt "Doors:" && !containsSub txt "Show:"
    && !(MONTH_UP.contains (upperStr txt))
    && txt.length > 5 && linesCount txt ≤ 2

/-- Title search over the first 10 preceding nodes (lines 99-110). -/
def titlePrev (b : Block) : Option String := (b.prevTexts.take 10).find? acceptPrev

/-- Sibling fallback (lines 113-118): first following-sibling text longer
than 5 characters; no anchor-phrase or month rejection is applied here. -/
def titleSib (b : Block) : Option String :=
  (b.nextSibTexts.take 6).find? (fun txt => !(txt == "") && txt.length > 5)

/-- Heading fallback (lines 121-126): first `h1`-`h4` text longer than 4. -/
def titleHead (b : Block) : Option String :=
  b.headingTexts.find? (fun t => !(t == "") && t.length > 4)

/-- The full title fallback chain. -/
def findTitle (b : Block) : Option String :=
  match titlePrev b with
  | some t => some t
  | none =>
    match titleSib b with
    | some t => some t
    | none => titleHead b

/-- `big`: the first 30 preceding texts joined with `" | "` (lines 137-143);
empty texts are dropped by the `if txt` guard. -/
def bigOf (b : Block) : String :=
  joinSep " | " ((b.prevTexts.take 30).filter (fun t => !(t == "")))

/-- Python truthiness of the optional title (`not title`). -/
def strFalsy : Option String → Bool
  | none => true
  | some s => s == ""

/-- Python truthiness of the optional day (`not day`: `None` or `0`). -/
def natFalsy : Option Nat → Bool
  | none => true
  | some n => n == 0

/-- The extracted time string (lines 179-183): the show-time text first;
if that yields nothing (absent or unparseable), the doors-time text. -/
def timeStrOf (b : Block) : Option String :=
  let s1 := match b.showText with
    | some s => parse_time_from_text s
    | none => none
  match s1 with
  | some t => some t
  | none =>
    match b.doorsText with
    | some d => parse_time_from_text d
    | none => none

/-- Year resolution (lines 155-167): explicit `20[2-9]\d` year if the regex
finds one; otherwise the current year, promoted when the extracted month
precedes the current month by more than one month. -/
def resolveYear (now : LDT) (month : Option String) (big : String) : Nat :=
  match findYear big with
  | some y => y
  | none =>
    match month with
    | some mon => if monthNum mon < now.month - 1 then now.year + 1 else now.year
    | none => now.year

/-- The diagnostic record of a discarded block (lines 187-188): the four
fields echoed by the `logger.debug` call. -/
structure Diag where
  title : Option String
  month : Option String
  day : Option Nat
  time : Option String
deriving DecidableEq, Repr

/-- The diagnostic a block would produce. -/
def diagOf (b : Block) : Diag :=
  ⟨findTitle b, findMonth (bigOf b), findDay (bigOf b), timeStrOf b⟩

/-- The required-field gate (line 185):
`not title or not month or not day or not show_time_str`. -/
def gateFails (b : Block) : Bool :=
  strFalsy (findTitle b) || (findMonth (bigOf b)).isNone
    || natFalsy (findDay (bigOf b)) || (timeStrOf b).isNone

/-- Processing of one block (the body of the `for doors_text` loop):
either a skip diagnostic, an extracted event, or an uncaught `ValueError`
from the `strptime` calls. -/
def processBlock (now : LDT) (b : Block) : Except Unit (Diag ⊕ ExtractedEvent) :=
  if gateFails b then Except.ok (Sum.inl (diagOf b))
  else
    match findTitle b, findMonth (bigOf b), findDay (bigOf b), timeStrOf b with
    | some t, some mon, some d, some ts =>
      let y := resolveYear now (findMonth (bigOf b)) (bigOf b)
      let mn := monthNum mon
      match strptime12 ts with
      | some (h, mi) =>
        if dateOKb y mn d then Except.ok (Sum.inr (mkEvent t ⟨y, mn, d, h, mi⟩))
        else Except.error ()
      | none => Except.error ()
    | _, _, _, _ => Except.ok (Sum.inl (diagOf b))

/-! ### Dedup and the extraction loop -/

/-- One step of the `unique[e["private_id"]] = e` dict build: a Python dict
update keeps the first-insertion position and replaces the value. -/
def dedupInsert (acc : List ExtractedEvent) (e : ExtractedEvent) : List ExtractedEvent :=
  if acc.any (fun y => y.private_id == e.private_id) then
    acc.map (fun y => if y.private_id == e.private_id then e else y)
  else acc ++ [e]

/-- The dedup of lines 217-222: `list(unique.values())`. -/
def dedup (es : List ExtractedEvent) : List ExtractedEvent := es.foldl dedupInsert []

/-- The extraction loop over all anchor blocks, threading the event and
diagnostic accumulators; an uncaught `ValueError` aborts the whole loop. -/
def parseLoop (now : LDT) :
    List Block → List ExtractedEvent → List Diag →
      Except Unit (List ExtractedEvent × List Diag)
  | [], evs, ds => Except.ok (evs, ds)
  | b :: bs, evs, ds =>
    match processBlock now b with
    | Except.error _ => Except.error ()
    | Except.ok (Sum.inl dg) => parseLoop now bs evs (ds ++ [dg])
    | Except.ok (Sum.inr e) => parseLoop now bs (evs ++ [e]) ds

/-- `parse_event_blocks`: run the loop, then dedup by `private_id`. -/
def parse_event_blocks (now : LDT) (bs : List Block) :
    Except Unit (List ExtractedEvent × List Diag) :=
  match parseLoop now bs [] [] with
  | Except.error _ => Except.error ()
  | Except.ok (evs, ds) => Except.ok (dedup evs, ds)

/-! ### Remote store and reconciliation engine -/

/-- A record of the remote calendar store, as returned by its windowed
query per the interface of the spec: id, summary, description, start and
end instants (seconds), and the optional private identity tag. -/
structure RemoteEvent where
  id : Nat
  summary : String
  description : String
  start : Int
  stop : Int
  privateTag : Option String
deriving DecidableEq, Repr

/-- The remote store: its records plus a fresh-id counter. -/
structure Store where
  events : List RemoteEvent
  nextId : Nat
deriving DecidableEq, Repr

/-- Store well-formedness: record ids are distinct and below the counter
(any real calendar store satisfies this). -/
def StoreWF (s : Store) : Prop :=
  (s.events.map (fun r => r.id)).Nodup ∧ ∀ r ∈ s.events, r.id < s.nextId

instance : DecidablePred StoreWF := fun s => by
  unfold StoreWF
  infer_instance

/-- The windowed query issued by `find_existing_event` (lines 235-237):
events whose start lies in the window, in start-time order
(`orderBy="startTime"`), truncated to the first 10 (`maxResults=10`). -/
def queryW (s : Store) (tmin tmax : Int) : List RemoteEvent :=
  ((s.events.filter (fun r => decide (tmin ≤ r.start) && decide (r.start ≤ tmax))).insertionSort
      (fun a b => a.start ≤ b.start)).take 10

/-- The matching test of line 252: trimmed case-insensitive title equality
and an absolute start-time difference strictly under 60 seconds. -/
def matchesR (title : String) (st : Int) (r : RemoteEvent) : Bool :=
  eqT r.summary title && decide ((r.start - st).natAbs < 60)

/-- `find_existing_event` (lines 230-254): first match, in the query's
returned order, of the title+60s criterion. -/
def find_existing_event (s : Store) (title : String) (st : Int) : Option RemoteEvent :=
  (queryW s (st - 7200) (st + 7200)).find? (matchesR title st)

/-- Start instant of an extracted event. -/
def startZ (e : ExtractedEvent) : Int := toSecsZ e.start

/-- The description actually written: ticket URL appended when present
(lines 261-264). -/
def descOf (e : ExtractedEvent) : String :=
  match e.ticket_url with
  | some u => stripStr (e.description ++ "\n\nTicket: " ++ u)
  | none => e.description

/-- The write payload (`event_body`, lines 268-277) given the id it will
carry: summary, description, start, end, and the private identity tag. -/
def writeBody (e : ExtractedEvent) (id : Nat) : RemoteEvent :=
  { id := id
    summary := e.title
    description := descOf e
    start := startZ e
    stop := startZ e + 7200
    privateTag := some e.private_id }

/-- The reconciliation decision for one event. -/
inductive SyncDecision where
  | insert (e : ExtractedEvent)
  | update (id : Nat) (e : ExtractedEvent)
deriving DecidableEq, Repr

/-- `upsert_event` (lines 257-285): look up a match; patch it when found
(an `events().patch` replaces every supplied field of the record with that
id), insert a fresh record otherwise. -/
def upsert_event (s : Store) (e : ExtractedEvent) : Store × SyncDecision :=
  match find_existing_event s e.title (startZ e) with
  | some r =>
    (⟨s.events.map (fun x => if x.id == r.id then writeBody e r.id else x), s.nextId⟩,
      SyncDecision.update r.id e)
  | none =>
    (⟨s.events ++ [writeBody e s.nextId], s.nextId + 1⟩, SyncDecision.insert e)

/-- The write loop of `main` (lines 305-309) without external failures:
upsert each event in order, collecting the decisions. -/
def runBatch : Store → List ExtractedEvent → Store × List SyncDecision
  | s, [] => (s, [])
  | s, e :: es =>
    let p := upsert_event s e
    let q := runBatch p.1 es
    (q.1, p.2 :: q.2)

/-- The write loop of `main` with its `try/except`: `fail` is the external
oracle saying whether the remote call for an event raises; a failing call
performs no write, and `main` logs the event's title and continues.
Returns the final store, the decisions executed, and the failure log. -/
def runBatchF (fail : ExtractedEvent → Bool) :
    Store → List ExtractedEvent → Store × List SyncDecision × List String
  | s, [] => (s, [], [])
  | s, e :: es =>
    if fail e then
      let q := runBatchF fail s es
      (q.1, q.2.1, e.title :: q.2.2)
    else
      let p := upsert_event s e
      let q := runBatchF fail p.1 es
      (q.1, p.2 :: q.2.1, q.2.2)

/-- The look-ahead filter of `main` (lines 299-301):
`now - timedelta(days=1) <= e["start"] <= now + timedelta(days=365)`. -/
def eligible (now : LDT) (e : ExtractedEvent) : Bool :=
  decide (toSecsZ now - 86400 ≤ startZ e) && decide (startZ e ≤ toSecsZ now + 365 * 86400)

/-- The deduplicated, look-ahead-filtered event list `main` will upsert. -/
def pipelineEvents (now : LDT) (bs : List Block) : Except Unit (List ExtractedEvent) :=
  match parse_event_blocks now bs with
  | Except.error _ => Except.error ()
  | Except.ok (evs, _) => Except.ok (evs.filter (eligible now))

/-- One full pipeline run against a document (its anchor blocks) and a
remote store: extract, dedup, filter, reconcile and write.  An extraction
crash aborts the run before any write. -/
def runPipeline (now : LDT) (bs : List Block) (s : Store) : Store × List SyncDecision :=
  match pipelineEvents now bs with
  | Except.error _ => (s, [])
  | Except.ok es => runBatch s es

/-- Closeness of two extracted events under the reconciliation criterion:
the relation whose absence the amended idempotence theorem assumes. -/
def nearMatch (a b : ExtractedEvent) : Prop :=
  eqT a.title b.title = true ∧ (startZ a - startZ b).natAbs < 60

instance : ∀ a b, Decidable (nearMatch a b) := fun a b => by
  unfold nearMatch
  infer_instance

/-- A store has a record carrying exactly an event's written title and
start. -/
def hasExact (s : Store) (e : ExtractedEvent) : Prop :=
  ∃ r ∈ s.events, r.summary = e.title ∧ r.start = startZ e

/-! ### Concrete documents and stores used by witnesses and counterexamples -/

/-- A current instant: 2025-11-20 12:00 local. -/
def nowA : LDT := ⟨2025, 11, 20, 12, 0⟩

/-- A well-formed event block: title in the preceding window, date
fragments "Dec" / "02", show time 8:00 pm. -/
def blockA : Block :=
  { prevTexts := ["Midnight Revue", "Dec", "02"]
    nextSibTexts := []
    headingTexts := []
    linkHrefs := []
    showText := some "Show: 8:00 pm"
    doorsText := some "Doors: 7:00 pm" }

/-- The event `blockA` extracts. -/
def evA : ExtractedEvent := mkEvent "Midnight Revue" ⟨2025, 12, 2, 20, 0⟩

/-- The start instant of `evA`. -/
def tA : Int := toSecsZ ⟨2025, 12, 2, 20, 0⟩

/-- An initial remote state with ten non-matching records crowding
`evA`'s query window, all starting before `evA`. -/
def s0cex : Store :=
  ⟨(List.range 10).map (fun i =>
      ⟨i, "filler" ++ toString i, "", tA - 100 + i, tA + 1000, none⟩), 50⟩

/-- A block whose date text carries the explicit year 2019, outside the
`20[2-9]\d` range of the year regex. -/
def blockY : Block :=
  { prevTexts := ["Midnight Revue", "Jan", "5", "2019"]
    nextSibTexts := []
    headingTexts := []
    linkHrefs := []
    showText := some "Show: 8:00 pm"
    doorsText := none }

/-- The event `blockY` extracts: the heuristic assigns year 2026. -/
def evY : ExtractedEvent := mkEvent "Midnight Revue" ⟨2026, 1, 5, 20, 0⟩

/-- A block with no acceptable preceding title, whose first following
sibling text contains the anchor phrase `"Doors:"`. -/
def blockSib : Block :=
  { prevTexts := ["Dec", "02"]
    nextSibTexts := ["Doors: 7:00 pm tonight"]
    headingTexts := []
    linkHrefs := []
    showText := some "Show: 8:00 pm"
    doorsText := some "Doors: 7:00 pm" }

/-- A block whose show-time text `"0:30 pm"` matches the extraction
pattern but neither `strptime` grammar (hour 0 is invalid for `%I`). -/
def blockBad : Block :=
  { prevTexts := ["Midnight Revue", "Dec", "02"]
    nextSibTexts := []
    headingTexts := []
    linkHrefs := []
    showText := some "Show: 0:30 pm"
    doorsText := none }

/-- A block with a ticket link present in the document. -/
def blockL : Block :=
  { prevTexts := ["Midnight Revue", "Dec", "02"]
    nextSibTexts := []
    headingTexts := []
    linkHrefs := ["https://tickets.example/midnight-revue"]
    showText := some "Show: 8:00 pm"
    doorsText := some "Doors: 7:00 pm" }

/-- A block with no parsable time fragment anywhere. -/
def blockNT : Block :=
  { prevTexts := ["Midnight Revue", "Dec", "02"]
    nextSibTexts := []
    headingTexts := []
    linkHrefs := []
    showText := some "Show: TBD"
    doorsText := some "Doors: soon" }

/-- A store holding one non-matching and one matching record for `evA`;
the matching one differs in case, surrounding whitespace and 30 seconds. -/
def s2ex : Store :=
  ⟨[⟨3, "Other Show", "", tA - 600, tA + 1000, none⟩,
    ⟨7, " midnight REVUE ", "", tA + 30, tA + 7230, none⟩], 20⟩

/-- A store where the only record matching `evA` starts after ten
non-matching records inside the window: it falls outside the first 10
results of the start-time-ordered query. -/
def s11ex : Store :=
  ⟨(List.range 10).map (fun i =>
      ⟨i, "filler" ++ toString i, "", tA - 100 + i, tA + 1000, none⟩)
    ++ [⟨20, "Midnight Revue", "", tA, tA + 7200, none⟩], 50⟩

/-- Further events for the batch-isolation witness. -/
def evB : ExtractedEvent := mkEvent "Boom" ⟨2025, 12, 3, 20, 0⟩

/-- Third event for the batch-isolation witness. -/
def evC : ExtractedEvent := mkEvent "Closer" ⟨2025, 12, 4, 20, 0⟩

/-- A failure oracle failing exactly the event titled "Boom". -/
def failB (e : ExtractedEvent) : Bool := e.title == "Boom"

/-- An event carrying a ticket URL, as `upsert_event` would accept it;
`parse_event_blocks` never produces one (see `uct_c7_ticket_url_bug`). -/
def evU : ExtractedEvent :=
  { title := "Ticketed Show"
    start := ⟨2025, 12, 2, 20, 0⟩
    description := ""
    ticket_url := some "https://tickets.example/x"
    private_id := "Ticketed Show|2025-12-02T20:00:00" }

/-- Two records sharing a fingerprint but differing elsewhere, for the
dedup witness. -/
def dupF : ExtractedEvent :=
  { title := "Dup"
    start := ⟨2025, 12, 2, 20, 0⟩
    description := "first"
    ticket_url := none
    private_id := "Dup|2025-12-02T20:00:00" }

/-- The later duplicate of `dupF`, which dedup must retain. -/
def dupG : ExtractedEvent :=
  { title := "Dup"
    start := ⟨2025, 12, 2, 20, 0⟩
    description := "second"
    ticket_url := none
    private_id := "Dup|2025-12-02T20:00:00" }

/-- Decidable equality for `Except`, for evaluating concrete parse results. -/
instance {ε α : Type} [DecidableEq ε] [DecidableEq α] : DecidableEq (Except ε α) := fun a b =>
  match a, b with
  | Except.error x, Except.error y =>
    if h : x = y then isTrue (by rw [h]) else isFalse (fun hh => by cases hh; exact h rfl)
  | Except.ok x, Except.ok y =>
    if h : x = y then isTrue (by rw [h]) else isFalse (fun hh => by cases hh; exact h rfl)
  | Except.error _, Except.ok _ => isFalse (fun hh => by cases hh)
  | Except.ok _, Except.error _ => isFalse (fun hh => by cases hh)

/-! ### Helper lemmas -/

set_option maxRecDepth 40000

theorem find?_first_split {α : Type} (p : α → Bool) (l : List α) (a : α)
    (h : l.find? p = some a) :
    ∃ l1 l2, l = l1 ++ a :: l2 ∧ (∀ x ∈ l1, p x = false) ∧ p a = true := by
  induction l with
  | nil => simp [List.find?] at h
  | cons b t ih =>
    by_cases hb : p b = true
    · rw [List.find?_cons_of_pos _ hb] at h
      cases h
      exact ⟨[], t, rfl, by simp, hb⟩
    · rw [List.find?_cons_of_neg _ hb] at h
      obtain ⟨l1, l2, hl, hfa, hpa⟩ := ih h
      exact ⟨b :: l1, l2, by rw [hl]; rfl, by
        intro x hx
        rcases List.mem_cons.mp hx with hx | hx
        · subst hx; exact Bool.not_eq_true _ ▸ (by simpa using hb)
        · exact hfa x hx, hpa⟩

theorem beq_str_comm (a b : String) : (a == b) = (b == a) := by
  rw [Bool.eq_iff_iff]
  constructor <;> intro h <;> exact beq_iff_eq.mpr (beq_iff_eq.mp h).symm

theorem eqT_refl (a : String) : eqT a a = true := by
  simp [eqT]

theorem eqT_symm (a b : String) : eqT a b = eqT b a := by
  unfold eqT
  exact beq_str_comm _ _

theorem nearMatch_refl (e : ExtractedEvent) : nearMatch e e := by
  refine ⟨eqT_refl _, ?_⟩
  omega

theorem nearMatch_symm {a b : ExtractedEvent} (h : nearMatch a b) : nearMatch b a := by
  obtain ⟨h1, h2⟩ := h
  exact ⟨(eqT_symm b.title a.title).trans h1, by omega⟩

theorem mem_queryW {s : Store} {a b : Int} {r : RemoteEvent} (h : r ∈ queryW s a b) :
    r ∈ s.events ∧ a ≤ r.start ∧ r.start ≤ b := by
  unfold queryW at h
  have h2 := List.take_subset _ _ h
  rw [List.mem_insertionSort] at h2
  have h3 := List.mem_filter.mp h2
  refine ⟨h3.1, ?_, ?_⟩
  · have := h3.2
    simp only [Bool.and_eq_true, decide_eq_true_eq] at this
    exact this.1
  · have := h3.2
    simp only [Bool.and_eq_true, decide_eq_true_eq] at this
    exact this.2

theorem queryW_complete {s : Store} {a b : Int} {r : RemoteEvent}
    (hcap : s.events.length ≤ 10) (hm : r ∈ s.events) (h1 : a ≤ r.start) (h2 : r.start ≤ b) :
    r ∈ queryW s a b := by
  unfold queryW
  have hf : r ∈ s.events.filter (fun r => decide (a ≤ r.start) && decide (r.start ≤ b)) := by
    rw [List.mem_filter]
    exact ⟨hm, by simp [h1, h2]⟩
  have hlen : ((s.events.filter
      (fun r => decide (a ≤ r.start) && decide (r.start ≤ b))).insertionSort
        (fun x y => x.start ≤ y.start)).length ≤ 10 := by
    rw [List.length_insertionSort]
    exact le_trans (List.length_filter_le _ _) hcap
  rw [List.take_of_length_le hlen, List.mem_insertionSort]
  exact hf

theorem length_queryW (s : Store) (a b : Int) : (queryW s a b).length ≤ 10 :=
  List.length_take_le _ _

theorem find_existing_some {s : Store} {t : String} {st : Int} {r : RemoteEvent}
    (h : find_existing_event s t st = some r) :
    r ∈ s.events ∧ matchesR t st r = true ∧ st - 7200 ≤ r.start ∧ r.start ≤ st + 7200 := by
  unfold find_existing_event at h
  have hm := List.mem_of_find?_eq_some h
  have hp := List.find?_some h
  obtain ⟨h1, h2, h3⟩ := mem_queryW hm
  exact ⟨h1, hp, h2, h3⟩

theorem matchesR_exact {r : RemoteEvent} {e : ExtractedEvent}
    (hs : r.summary = e.title) (hst : r.start = startZ e) :
    matchesR e.title (startZ e) r = true := by
  simp [matchesR, hs, hst, eqT_refl]

theorem find_existing_of_hasExact {s : Store} {e : ExtractedEvent}
    (hcap : s.events.length ≤ 10) (hex : hasExact s e) :
    ∃ r, find_existing_event s e.title (startZ e) = some r := by
  obtain ⟨r, hm, hs, hst⟩ := hex
  have hq : r ∈ queryW s (startZ e - 7200) (startZ e + 7200) :=
    queryW_complete hcap hm (by omega) (by omega)
  have : ((queryW s (startZ e - 7200) (startZ e + 7200)).find?
      (matchesR e.title (startZ e))).isSome := by
    rw [List.find?_isSome]
    exact ⟨r, hq, matchesR_exact hs hst⟩
  unfold find_existing_event
  exact Option.isSome_iff_exists.mp this

theorem writeBody_summary (e : ExtractedEvent) (i : Nat) : (writeBody e i).summary = e.title := rfl

theorem writeBody_start (e : ExtractedEvent) (i : Nat) : (writeBody e i).start = startZ e := rfl

theorem writeBody_id (e : ExtractedEvent) (i : Nat) : (writeBody e i).id = i := rfl

theorem upsert_writes (s : Store) (e : ExtractedEvent) : hasExact (upsert_event s e).1 e := by
  unfold upsert_event
  cases hfind : find_existing_event s e.title (startZ e) with
  | none =>
    exact ⟨writeBody e s.nextId, List.mem_append_right _ (List.mem_singleton_self _), rfl, rfl⟩
  | some r =>
    obtain ⟨hm, _, _, _⟩ := find_existing_some hfind
    refine ⟨writeBody e r.id, ?_, rfl, rfl⟩
    have : (fun x : RemoteEvent => if x.id == r.id then writeBody e r.id else x) r
        = writeBody e r.id := by simp
    exact this ▸ List.mem_map_of_mem _ hm

theorem id_injective_on {s : Store} (hwf : StoreWF s) {a b : RemoteEvent}
    (ha : a ∈ s.events) (hb : b ∈ s.events) (hid : a.id = b.id) : a = b :=
  List.inj_on_of_nodup_map hwf.1 ha hb hid

theorem upsert_preserve {s : Store} {e' e : ExtractedEvent}
    (hwf : StoreWF s) (hne : ¬ nearMatch e e') (hex : hasExact s e) :
    hasExact (upsert_event s e').1 e := by
  obtain ⟨r, hm, hs, hst⟩ := hex
  unfold upsert_event
  cases hfind : find_existing_event s e'.title (startZ e') with
  | none => exact ⟨r, List.mem_append_left _ hm, hs, hst⟩
  | some r0 =>
    obtain ⟨hm0, hp0, _, _⟩ := find_existing_some hfind
    have hid : r.id ≠ r0.id := by
      intro hid
      apply hne
      have hr : r = r0 := id_injective_on hwf hm hm0 hid
      rw [← hr] at hp0
      unfold matchesR at hp0
      simp only [Bool.and_eq_true, decide_eq_true_eq] at hp0
      rw [hs, hst] at hp0
      exact ⟨(eqT_symm e.title e'.title).trans (eqT_symm e'.title e.title ▸ hp0.1), hp0.2⟩
    refine ⟨r, ?_, hs, hst⟩
    have : (fun x : RemoteEvent => if x.id == r0.id then writeBody e' r0.id else x) r = r := by
      simp [hid]
    exact this ▸ List.mem_map_of_mem _ hm

theorem upsert_WF {s : Store} (e : ExtractedEvent) (hwf : StoreWF s) :
    StoreWF (upsert_event s e).1 := by
  unfold upsert_event
  cases hfind : find_existing_event s e.title (startZ e) with
  | none =>
    constructor
    · rw [List.map_append]
      rw [List.nodup_append]
      refine ⟨hwf.1, by simp, ?_⟩
      intro x hx hx2
      obtain ⟨r, hr, hrx⟩ := List.mem_map.mp hx
      have hx2 : x = s.nextId := by simpa [writeBody] using hx2
      have hlt := hwf.2 r hr
      omega
    · intro r hr
      rcases List.mem_append.mp hr with hr | hr
      · exact Nat.lt_succ_of_lt (hwf.2 r hr)
      · simp only [List.mem_singleton] at hr
        subst hr
        exact Nat.lt_succ_self _
  | some r0 =>
    have hids : (s.events.map
        (fun x => if x.id == r0.id then writeBody e r0.id else x)).map (fun r => r.id)
          = s.events.map (fun r => r.id) := by
      rw [List.map_map]
      apply List.map_congr_left
      intro x _
      by_cases hx : x.id = r0.id
      · simp [hx, writeBody]
      · simp [hx]
    constructor
    · rw [hids]
      exact hwf.1
    · intro r hr
      obtain ⟨x, hx, hxr⟩ := List.mem_map.mp hr
      by_cases hc : x.id = r0.id
      · rw [if_pos (by simpa using hc)] at hxr
        rw [← hxr]
        obtain ⟨hm0, _, _, _⟩ := find_existing_some hfind
        exact hwf.2 r0 hm0
      · rw [if_neg (by simpa using hc)] at hxr
        rw [← hxr]
        exact hwf.2 x hx

theorem upsert_len_le (s : Store) (e : ExtractedEvent) :
    (upsert_event s e).1.events.length ≤ s.events.length + 1 := by
  unfold upsert_event
  cases hfind : find_existing_event s e.title (startZ e) with
  | none => simp
  | some r => simp

theorem upsert_of_some {s : Store} {e : ExtractedEvent} {r : RemoteEvent}
    (hfind : find_existing_event s e.title (startZ e) = some r) :
    (upsert_event s e).1.events.length = s.events.length
      ∧ (upsert_event s e).2 = SyncDecision.update r.id e := by
  unfold upsert_event
  rw [hfind]
  simp

theorem upsert_of_none {s : Store} {e : ExtractedEvent}
    (hfind : find_existing_event s e.title (startZ e) = none) :
    (upsert_event s e).2 = SyncDecision.insert e := by
  unfold upsert_event
  rw [hfind]

theorem runBatch_WF : ∀ (es : List ExtractedEvent) (s : Store), StoreWF s →
    StoreWF (runBatch s es).1 := by
  intro es
  induction es with
  | nil => intro s hwf; exact hwf
  | cons e es ih =>
    intro s hwf
    exact ih _ (upsert_WF e hwf)

theorem runBatch_pres : ∀ (es : List ExtractedEvent) (s : Store) (e : ExtractedEvent),
    StoreWF s → hasExact s e → (∀ e' ∈ es, ¬ nearMatch e e') →
      hasExact (runBatch s es).1 e := by
  intro es
  induction es with
  | nil => intro s e _ hex _; exact hex
  | cons e'' es ih =>
    intro s e hwf hex hall
    have h1 : hasExact (upsert_event s e'').1 e :=
      upsert_preserve hwf (hall e'' (List.mem_cons_self _ _)) hex
    exact ih _ _ (upsert_WF e'' hwf) h1 (fun e' he' => hall e' (List.mem_cons_of_mem _ he'))

theorem runBatch_len_le : ∀ (es : List ExtractedEvent) (s : Store),
    (runBatch s es).1.events.length ≤ s.events.length + es.length := by
  intro es
  induction es with
  | nil => intro s; simp [runBatch]
  | cons e es ih =>
    intro s
    calc (runBatch s (e :: es)).1.events.length
        = (runBatch (upsert_event s e).1 es).1.events.length := rfl
      _ ≤ (upsert_event s e).1.events.length + es.length := ih _
      _ ≤ s.events.length + 1 + es.length :=
          Nat.add_le_add_right (upsert_len_le s e) _
      _ = s.events.length + (e :: es).length := by simp; omega

theorem runBatch_writes_all : ∀ (es : List ExtractedEvent) (s : Store), StoreWF s →
    es.Pairwise (fun a b => ¬ nearMatch a b) →
      ∀ e ∈ es, hasExact (runBatch s es).1 e := by
  intro es
  induction es with
  | nil => intro s _ _ e he; cases he
  | cons e0 es ih =>
    intro s hwf hpw e he
    rw [List.pairwise_cons] at hpw
    rcases List.mem_cons.mp he with he | he
    · subst he
      exact runBatch_pres es _ e (upsert_WF e hwf) (upsert_writes s e) hpw.1
    · exact ih _ (upsert_WF e0 hwf) hpw.2 e he

theorem runBatch_second : ∀ (es : List ExtractedEvent) (s : Store), StoreWF s →
    s.events.length ≤ 10 → (∀ e ∈ es, hasExact s e) →
      es.Pairwise (fun a b => ¬ nearMatch a b) →
        (runBatch s es).1.events.length = s.events.length
          ∧ ∀ d ∈ (runBatch s es).2, ∀ x, d ≠ SyncDecision.insert x := by
  intro es
  induction es with
  | nil => intro s _ _ _ _; exact ⟨rfl, by intro d hd; cases hd⟩
  | cons e es ih =>
    intro s hwf hcap hex hpw
    rw [List.pairwise_cons] at hpw
    obtain ⟨r, hfind⟩ :=
      find_existing_of_hasExact hcap (hex e (List.mem_cons_self _ _))
    obtain ⟨hlen, hdec⟩ := upsert_of_some hfind
    have hex2 : ∀ e' ∈ es, hasExact (upsert_event s e).1 e' := by
      intro e' he'
      refine upsert_preserve hwf ?_ (hex e' (List.mem_cons_of_mem _ he'))
      intro hnm
      exact hpw.1 e' he' (nearMatch_symm hnm)
    obtain ⟨ih1, ih2⟩ :=
      ih (upsert_event s e).1 (upsert_WF e hwf) (by omega) hex2 hpw.2
    constructor
    · calc (runBatch s (e :: es)).1.events.length
          = (runBatch (upsert_event s e).1 es).1.events.length := rfl
        _ = (upsert_event s e).1.events.length := ih1
        _ = s.events.length := hlen
    · intro d hd x
      have hd2 : d ∈ (upsert_event s e).2 :: (runBatch (upsert_event s e).1 es).2 := hd
      rcases List.mem_cons.mp hd2 with hd3 | hd3
      · subst hd3
        rw [hdec]
        intro hcontra
        cases hcontra
      · exact ih2 d hd3 x

theorem runPipeline_eq_runBatch {now : LDT} {bs : List Block} {es : List ExtractedEvent}
    (hes : pipelineEvents now bs = Except.ok es) (s : Store) :
    runPipeline now bs s = runBatch s es := by
  unfold runPipeline
  rw [hes]

/-- Claim C1, corrected.  The claim as frozen fails (see `uct_c1_cex`): the
windowed query is truncated to its first 10 results, so a crowded window
hides the record the first run wrote and the second run inserts a
duplicate.  Amended statement: for every document, current instant and
well-formed initial remote state, if the extracted deduplicated events are
pairwise non-matching under the title+60s criterion and the initial
records together with the extracted events number at most 10 (so no query
is ever truncated), then a second pipeline run against the same document
and the state left by the first run keeps the number of remote records of
the first run and emits no Insert decision at all. -/
theorem uct_c1_idempotent_amended (now : LDT) (bs : List Block) (s0 : Store)
    (es : List ExtractedEvent)
    (hes : pipelineEvents now bs = Except.ok es)
    (hwf : StoreWF s0)
    (hsep : es.Pairwise (fun a b => ¬ nearMatch a b))
    (hcap : s0.events.length + es.length ≤ 10) :
    (runPipeline now bs (runPipeline now bs s0).1).1.events.length
        = (runPipeline now bs s0).1.events.length
      ∧ ∀ d ∈ (runPipeline now bs (runPipeline now bs s0).1).2, ∀ x,
          d ≠ SyncDecision.insert x := by
  simp only [runPipeline_eq_runBatch hes]
  have hwf1 : StoreWF (runBatch s0 es).1 := runBatch_WF es s0 hwf
  have hlen1 : (runBatch s0 es).1.events.length ≤ 10 :=
    le_trans (runBatch_len_le es s0) hcap
  have hex1 : ∀ e ∈ es, hasExact (runBatch s0 es).1 e := runBatch_writes_all es s0 hwf hsep
  exact runBatch_second es (runBatch s0 es).1 hwf1 hlen1 hex1 hsep

/-- Witness for the amended C1: one extracted event against the empty
store; the second run performs an update and no insert. -/
theorem uct_c1_idempotent_amended_witness :
    pipelineEvents nowA [blockA] = Except.ok [evA]
      ∧ StoreWF ⟨[], 0⟩
      ∧ ((runPipeline nowA [blockA] (runPipeline nowA [blockA] ⟨[], 0⟩).1).1.events.length
            = (runPipeline nowA [blockA] ⟨[], 0⟩).1.events.length
          ∧ ∀ d ∈ (runPipeline nowA [blockA] (runPipeline nowA [blockA] ⟨[], 0⟩).1).2, ∀ x,
              d ≠ SyncDecision.insert x) :=
  ⟨by decide, by decide,
    uct_c1_idempotent_amended nowA [blockA] ⟨[], 0⟩ [evA]
      (by decide) (by decide) (by decide) (by decide)⟩

/-- Claim C1, counterexample to the frozen statement: with ten non-matching
records crowding the window of the one extracted event, the first run
inserts it as the 11th record, the start-time-ordered query of the second
run returns only the ten earlier records, and the second run inserts the
very same event again — 12 records after run two versus 11 after run one. -/
theorem uct_c1_cex :
    ¬ ((runPipeline nowA [blockA] (runPipeline nowA [blockA] s0cex).1).1.events.length
        = (runPipeline nowA [blockA] s0cex).1.events.length)
      ∧ SyncDecision.insert evA ∈ (runPipeline nowA [blockA] s0cex).2
      ∧ SyncDecision.insert evA
          ∈ (runPipeline nowA [blockA] (runPipeline nowA [blockA] s0cex).1).2 :=
  ⟨by decide, by decide, by decide⟩

/-- Claim C2, confirmed.  For every store and extracted event: the lookup
queries remote events whose start lies in `[start − 2h, start + 2h]`
(every query result is a store record inside the window); among the
results a record matches if and only if its title equals the extracted
title under trimmed case-insensitive comparison and the absolute
start-time difference is strictly under 60 seconds; no match yields an
Insert decision; a match yields an Update decision keyed to the matched
remote id, and the match taken is the first one in the query's returned
order. -/
theorem uct_c2_matching (s : Store) (e : ExtractedEvent) :
    (∀ r ∈ queryW s (startZ e - 7200) (startZ e + 7200),
        r ∈ s.events ∧ startZ e - 7200 ≤ r.start ∧ r.start ≤ startZ e + 7200)
      ∧ (∀ r ∈ queryW s (startZ e - 7200) (startZ e + 7200),
          (matchesR e.title (startZ e) r = true
            ↔ lowerStr (stripStr r.summary) = lowerStr (stripStr e.title)
                ∧ (r.start - startZ e).natAbs < 60))
      ∧ (find_existing_event s e.title (startZ e) = none
          → (upsert_event s e).2 = SyncDecision.insert e)
      ∧ ∀ r, find_existing_event s e.title (startZ e) = some r
          → (upsert_event s e).2 = SyncDecision.update r.id e
            ∧ matchesR e.title (startZ e) r = true
            ∧ ∃ l1 l2, queryW s (startZ e - 7200) (startZ e + 7200) = l1 ++ r :: l2
                ∧ ∀ x ∈ l1, matchesR e.title (startZ e) x = false := by
  refine ⟨fun r hr => mem_queryW hr, ?_, ?_, ?_⟩
  · intro r _
    unfold matchesR eqT
    simp only [Bool.and_eq_true, decide_eq_true_eq, beq_iff_eq]
  · intro hnone
    exact upsert_of_none hnone
  · intro r hfind
    obtain ⟨_, hdec⟩ := upsert_of_some hfind
    have hp := List.find?_some hfind
    obtain ⟨l1, l2, hsplit, hfalse, _⟩ :=
      find?_first_split (matchesR e.title (startZ e)) _ r hfind
    exact ⟨hdec, hp, l1, l2, hsplit, hfalse⟩

/-- Witness for C2 at a concrete store: the record differing only in case,
surrounding whitespace and 30 seconds is matched and updated. -/
theorem uct_c2_matching_witness :
    find_existing_event s2ex evA.title (startZ evA)
        = some ⟨7, " midnight REVUE ", "", tA + 30, tA + 7230, none⟩
      ∧ (upsert_event s2ex evA).2
          = SyncDecision.update 7 evA := by
  refine ⟨by decide, ?_⟩
  have h := (uct_c2_matching s2ex evA).2.2.2
      ⟨7, " midnight REVUE ", "", tA + 30, tA + 7230, none⟩ (by decide)
  exact h.1

/-- Claim C10, confirmed.  The lookup examines at most the first 10 remote
events of the windowed, start-time-ordered query: whenever none of those
10 results satisfies the title+60s criterion, the lookup returns no match
and an Insert decision is emitted — even when a store record inside the
window does satisfy the criterion (it then lies outside the first 10). -/
theorem uct_c10_bounded_scan (s : Store) (e : ExtractedEvent)
    (hout : ∃ r ∈ s.events,
      (startZ e - 7200 ≤ r.start ∧ r.start ≤ startZ e + 7200)
        ∧ matchesR e.title (startZ e) r = true)
    (hnone : ∀ r ∈ queryW s (startZ e - 7200) (startZ e + 7200),
      matchesR e.title (startZ e) r = false) :
    (queryW s (startZ e - 7200) (startZ e + 7200)).length ≤ 10
      ∧ find_existing_event s e.title (startZ e) = none
      ∧ (upsert_event s e).2 = SyncDecision.insert e := by
  have hfind : find_existing_event s e.title (startZ e) = none := by
    unfold find_existing_event
    rw [List.find?_eq_none]
    intro x hx
    rw [hnone x hx]
    simp
  exact ⟨length_queryW s _ _, hfind, upsert_of_none hfind⟩

/-- Witness for C10: in `s11ex` the only record matching `evA` is the 11th
of the windowed query, so the scraper inserts a duplicate. -/
theorem uct_c10_bounded_scan_witness :
    (∃ r ∈ s11ex.events,
        (startZ evA - 7200 ≤ r.start ∧ r.start ≤ startZ evA + 7200)
          ∧ matchesR evA.title (startZ evA) r = true)
      ∧ ((queryW s11ex (startZ evA - 7200) (startZ evA + 7200)).length ≤ 10
          ∧ find_existing_event s11ex evA.title (startZ evA) = none
          ∧ (upsert_event s11ex evA).2 = SyncDecision.insert evA) :=
  ⟨by decide, uct_c10_bounded_scan s11ex evA (by decide) (by decide)⟩

/-- Claim C9, confirmed.  In the write loop of `main`, a failing remote
call for one event is caught, contributes exactly that event's title to
the failure log, executes no decision, and leaves the processing of every
subsequent event exactly as it would have been: the loop over
`pre ++ e :: post` equals the loop over `pre` continued over `post` from
the same store, with `e.title` logged in between. -/
theorem uct_c9_write_isolation (fail : ExtractedEvent → Bool) (s : Store)
    (pre post : List ExtractedEvent) (e : ExtractedEvent) (h : fail e = true) :
    runBatchF fail s (pre ++ e :: post)
      = ((runBatchF fail (runBatchF fail s pre).1 post).1,
          (runBatchF fail s pre).2.1 ++ (runBatchF fail (runBatchF fail s pre).1 post).2.1,
          (runBatchF fail s pre).2.2
            ++ e.title :: (runBatchF fail (runBatchF fail s pre).1 post).2.2) := by
  induction pre generalizing s with
  | nil =>
    simp only [List.nil_append, runBatchF, h, if_pos]
  | cons p pre ih =>
    cases hp : fail p with
    | true => simp [List.cons_append, runBatchF, hp, ih]
    | false => simp [List.cons_append, runBatchF, hp, ih]

/-- Witness for C9: the failing middle event "Boom" is logged by title and
the following event is still written. -/
theorem uct_c9_write_isolation_witness :
    failB evB = true
      ∧ runBatchF failB ⟨[], 0⟩ ([evA] ++ evB :: [evC])
          = ((runBatchF failB (runBatchF failB ⟨[], 0⟩ [evA]).1 [evC]).1,
              (runBatchF failB ⟨[], 0⟩ [evA]).2.1
                ++ (runBatchF failB (runBatchF failB ⟨[], 0⟩ [evA]).1 [evC]).2.1,
              (runBatchF failB ⟨[], 0⟩ [evA]).2.2
                ++ evB.title
                  :: (runBatchF failB (runBatchF failB ⟨[], 0⟩ [evA]).1 [evC]).2.2) :=
  ⟨by decide, uct_c9_write_isolation failB ⟨[], 0⟩ [evA] [evC] evB (by decide)⟩

/-- Claim C4, confirmed.  Whenever the required-field gate fires — any of
title, month, day, or time failing to resolve — the block yields no
extracted event but exactly one diagnostic echoing the four fields, and
the loop continues with the remaining blocks from unchanged accumulators.
Moreover a block with no parsable time fragment always makes the gate
fire, so it never contributes to the extracted-event output. -/
theorem uct_c4_required_gate (now : LDT) (b : Block) (h : gateFails b = true) :
    processBlock now b = Except.ok (Sum.inl (diagOf b))
      ∧ (∀ bs evs ds, parseLoop now (b :: bs) evs ds = parseLoop now bs evs (ds ++ [diagOf b]))
      ∧ ∀ b' : Block, timeStrOf b' = none → gateFails b' = true := by
  refine ⟨by simp [processBlock, h], ?_, ?_⟩
  · intro bs evs ds
    simp [parseLoop, processBlock, h]
  · intro b' hb'
    simp [gateFails, hb']

/-- Witness for C4: a block whose show and doors texts carry no parsable
time is discarded with the echoing diagnostic and the loop continues. -/
theorem uct_c4_required_gate_witness :
    gateFails blockNT = true
      ∧ (processBlock nowA blockNT = Except.ok (Sum.inl (diagOf blockNT))
          ∧ (∀ bs evs ds, parseLoop nowA (blockNT :: bs) evs ds
              = parseLoop nowA bs evs (ds ++ [diagOf blockNT]))
          ∧ ∀ b' : Block, timeStrOf b' = none → gateFails b' = true) :=
  ⟨by decide, uct_c4_required_gate nowA blockNT (by decide)⟩

/-- Claim C5, corrected.  The claim as frozen fails (see `uct_c5_cex`):
a time string such as "0:30 pm" is captured by the extraction pattern yet
matches neither `strptime` grammar, and the resulting `ValueError` is
uncaught, aborting extraction of all remaining blocks.  Amended statement:
when the extraction pattern itself finds no time in either the show or the
doors text, the failure is handled as the missing-time condition (block
discarded with a diagnostic, loop continues); but when the pattern matches
and the matched string fails both grammars, the whole extraction aborts. -/
theorem uct_c5_time_failure_amended (now : LDT) (b : Block) :
    (timeStrOf b = none →
        processBlock now b = Except.ok (Sum.inl (diagOf b))
          ∧ ∀ bs evs ds, parseLoop now (b :: bs) evs ds
              = parseLoop now bs evs (ds ++ [diagOf b]))
      ∧ ∀ ts, timeStrOf b = some ts → gateFails b = false → strptime12 ts = none →
          processBlock now b = Except.error ()
            ∧ ∀ bs, parse_event_blocks now (b :: bs) = Except.error () := by
  constructor
  · intro h
    have hg : gateFails b = true := by simp [gateFails, h]
    exact ⟨by simp [processBlock, hg], fun bs evs ds => by simp [parseLoop, processBlock, hg]⟩
  · intro ts hts hg hsp
    have hperr : processBlock now b = Except.error () := by
      cases hT : findTitle b with
      | none => exact absurd hg (by simp [gateFails, strFalsy, hT])
      | some t =>
        cases hM : findMonth (bigOf b) with
        | none => exact absurd hg (by simp [gateFails, hM])
        | some mon =>
          cases hD : findDay (bigOf b) with
          | none => exact absurd hg (by simp [gateFails, natFalsy, hD])
          | some d =>
            simp [processBlock, hg, hT, hM, hD, hts, hsp]
    refine ⟨hperr, ?_⟩
    intro bs
    simp [parse_event_blocks, parseLoop, hperr]

/-- Claim C5, counterexample to the frozen statement: the extracted time
string "0:30 pm" matches neither supported grammar, and instead of failing
only its own block the error aborts the whole extraction — the following
well-formed block is lost. -/
theorem uct_c5_cex :
    timeStrOf blockBad = some "0:30 pm"
      ∧ strptime12 "0:30 pm" = none
      ∧ processBlock nowA blockBad = Except.error ()
      ∧ parse_event_blocks nowA [blockBad, blockA] = Except.error () :=
  ⟨by decide, by decide, by decide, by decide⟩

/-- Witness for the amended C5 at the crashing block. -/
theorem uct_c5_time_failure_amended_witness :
    gateFails blockBad = false
      ∧ processBlock nowA blockBad = Except.error ()
      ∧ ∀ bs, parse_event_blocks nowA (blockBad :: bs) = Except.error () := by
  refine ⟨by decide, ?_⟩
  have h := (uct_c5_time_failure_amended nowA blockBad).2 "0:30 pm"
      (by decide) (by decide) (by decide)
  exact h

theorem isDigit_toNat {c : Char} (h : c.isDigit = true) : 48 ≤ c.toNat ∧ c.toNat ≤ 57 := by
  simp [Char.isDigit] at h
  exact h

theorem yearAtPos_bound {cs : List Char} {y : Nat} (h : yearAtPos cs = some y) :
    2020 ≤ y ∧ y ≤ 2099 := by
  rcases cs with _ | ⟨c1, _ | ⟨c2, _ | ⟨c3, _ | ⟨c4, rest⟩⟩⟩⟩
  · simp [yearAtPos] at h
  · simp [yearAtPos] at h
  · simp [yearAtPos] at h
  · simp [yearAtPos] at h
  simp only [yearAtPos] at h
  split at h
  · rename_i hc
    simp only [Bool.and_eq_true, decide_eq_true_eq] at hc
    obtain ⟨⟨⟨⟨⟨_, _⟩, h3⟩, h3b⟩, h4⟩, _⟩ := hc
    obtain ⟨_, h3u⟩ := isDigit_toNat h3
    obtain ⟨h4l, h4u⟩ := isDigit_toNat h4
    cases h
    unfold digitVal
    omega
  · cases h

theorem scanYear_bound : ∀ (prev : Option Char) (cs : List Char) (y : Nat),
    scanYear prev cs = some y → 2020 ≤ y ∧ y ≤ 2099 := by
  intro prev cs
  induction cs generalizing prev with
  | nil => intro y h; cases h
  | cons c rest ih =>
    intro y h
    simp only [scanYear] at h
    split at h
    · rename_i y0 heq
      cases h
      split at heq
      · exact yearAtPos_bound heq
      · cases heq
    · exact ih (some c) y h

theorem findYear_bound {s : String} {y : Nat} (h : findYear s = some y) :
    2020 ≤ y ∧ y ≤ 2099 :=
  scanYear_bound none s.toList y h

theorem processBlock_year (now : LDT) (b : Block) (e : ExtractedEvent)
    (h : processBlock now b = Except.ok (Sum.inr e)) :
    e.start.year = resolveYear now (findMonth (bigOf b)) (bigOf b) := by
  unfold processBlock at h
  by_cases hg : gateFails b = true
  · rw [if_pos hg] at h
    simp at h
  · rw [if_neg hg] at h
    cases hT : findTitle b with
    | none => rw [hT] at h; simp at h
    | some t =>
      cases hM : findMonth (bigOf b) with
      | none => rw [hT, hM] at h; simp at h
      | some mon =>
        cases hD : findDay (bigOf b) with
        | none => rw [hT, hM, hD] at h; simp at h
        | some d =>
          cases hts : timeStrOf b with
          | none => rw [hT, hM, hD, hts] at h; simp at h
          | some ts =>
            rw [hT, hM, hD, hts] at h
            simp only at h
            cases hsp : strptime12 ts with
            | none => rw [hsp] at h; cases h
            | some pr =>
              obtain ⟨ph, pmi⟩ := pr
              rw [hsp] at h
              dsimp only at h
              by_cases hok : dateOKb (resolveYear now (some mon) (bigOf b))
                  (monthNum mon) d = true
              · rw [if_pos hok] at h
                injection h with h1
                injection h1 with h2
                rw [← h2]
                rfl
              · rw [if_neg hok] at h
                cases h

/-- Claim C6, corrected.  The rollover heuristic is as claimed — no
explicit year yields the current year, promoted to the next year exactly
when the extracted month precedes the current month by more than one —
but the "explicit 4-digit year used as-is" part fails (see `uct_c6_cex`):
the year regex `20[2-9]\d` only recognises 2020-2099, so any other
explicit 4-digit year (e.g. 2019) is ignored and the heuristic applies.
Amended statement: every recognised explicit year lies in 2020-2099 and is
used as-is; with no recognised year the current year is used, promoted to
the next calendar year when the extracted month precedes the current month
by more than one month; an extracted event's start year is exactly the
value so resolved. -/
theorem uct_c6_year_amended :
    (∀ (s : String) (y : Nat), findYear s = some y → 2020 ≤ y ∧ y ≤ 2099)
      ∧ (∀ (now : LDT) (month : Option String) (big : String) (y : Nat),
          findYear big = some y → resolveYear now month big = y)
      ∧ (∀ (now : LDT) (mon : String) (big : String), findYear big = none →
          monthNum mon < now.month - 1 → resolveYear now (some mon) big = now.year + 1)
      ∧ (∀ (now : LDT) (mon : String) (big : String), findYear big = none →
          ¬ (monthNum mon < now.month - 1) → resolveYear now (some mon) big = now.year)
      ∧ (∀ (now : LDT) (b : Block) (e : ExtractedEvent),
          processBlock now b = Except.ok (Sum.inr e) →
            e.start.year = resolveYear now (findMonth (bigOf b)) (bigOf b)) := by
  refine ⟨fun s y h => findYear_bound h, ?_, ?_, ?_, processBlock_year⟩
  · intro now month big y h
    unfold resolveYear
    rw [h]
  · intro now mon big h hlt
    unfold resolveYear
    rw [h]
    simp [hlt]
  · intro now mon big h hlt
    unfold resolveYear
    rw [h]
    simp [hlt]

/-- Witness for the amended C6, on the spec's own example: current month
November, extracted month Jan, no recognised year — the next calendar year
is assigned, and the extracted event of `blockY` carries exactly the
resolved year. -/
theorem uct_c6_year_amended_witness :
    findYear (bigOf blockY) = none
      ∧ monthNum "Jan" < nowA.month - 1
      ∧ resolveYear nowA (some "Jan") (bigOf blockY) = nowA.year + 1
      ∧ evY.start.year = resolveYear nowA (findMonth (bigOf blockY)) (bigOf blockY) :=
  ⟨by decide, by decide,
    (uct_c6_year_amended.2.2.1 nowA "Jan" (bigOf blockY) (by decide) (by decide)),
    (uct_c6_year_amended.2.2.2.2 nowA blockY evY (by decide))⟩

/-- Claim C6, counterexample to the frozen statement: the date text of
`blockY` carries the explicit 4-digit year 2019, yet the extracted event
is assigned year 2026 (current November 2025, extracted month Jan,
promoted) — the explicit year is not used as-is. -/
theorem uct_c6_cex :
    findYearLiteral (bigOf blockY) = some 2019
      ∧ findYear (bigOf blockY) = none
      ∧ processBlock nowA blockY = Except.ok (Sum.inr evY)
      ∧ evY.start.year = 2026
      ∧ ¬ evY.start.year = 2019 :=
  ⟨by decide, by decide, by decide, by decide, by decide⟩

theorem processBlock_shape (now : LDT) (b : Block) (e : ExtractedEvent)
    (h : processBlock now b = Except.ok (Sum.inr e)) :
    ∃ t ldt, findTitle b = some t ∧ e = mkEvent t ldt := by
  unfold processBlock at h
  by_cases hg : gateFails b = true
  · rw [if_pos hg] at h
    simp at h
  · rw [if_neg hg] at h
    cases hT : findTitle b with
    | none => rw [hT] at h; simp at h
    | some t =>
      cases hM : findMonth (bigOf b) with
      | none => rw [hT, hM] at h; simp at h
      | some mon =>
        cases hD : findDay (bigOf b) with
        | none => rw [hT, hM, hD] at h; simp at h
        | some d =>
          cases hts : timeStrOf b with
          | none => rw [hT, hM, hD, hts] at h; simp at h
          | some ts =>
            rw [hT, hM, hD, hts] at h
            dsimp only at h
            cases hsp : strptime12 ts with
            | none => rw [hsp] at h; cases h
            | some pr =>
              obtain ⟨ph, pmi⟩ := pr
              rw [hsp] at h
              dsimp only at h
              by_cases hok : dateOKb (resolveYear now (some mon) (bigOf b))
                  (monthNum mon) d = true
              · rw [if_pos hok] at h
                injection h with h1
                injection h1 with h2
                exact ⟨t, _, rfl, h2.symm⟩
              · rw [if_neg hok] at h
                cases h

theorem extracted_ticket_url_none (now : LDT) (b : Block) (e : ExtractedEvent)
    (h : processBlock now b = Except.ok (Sum.inr e)) : e.ticket_url = none := by
  obtain ⟨t, ldt, _, he⟩ := processBlock_shape now b e h
  rw [he]
  rfl

/-- Claim C7, code bug.  The block of `blockL` carries an href-bearing
link, and the function's own docstring promises ticket-link extraction,
but `ticket_url` is initialised to `None` at line 96 and never assigned:
the extracted event's ticket URL is `none` and the written description
stays empty.  The write-through half of the claim does hold: when a ticket
URL is present on an event, `upsert_event` appends it to the description
it writes — as `evU` shows — but no pipeline event ever carries one. -/
theorem uct_c7_ticket_url_bug :
    blockL.linkHrefs = ["https://tickets.example/midnight-revue"]
      ∧ processBlock nowA blockL = Except.ok (Sum.inr evA)
      ∧ evA.ticket_url = none
      ∧ descOf evA = ""
      ∧ (writeBody evA 5).description = ""
      ∧ descOf evU = "Ticket: https://tickets.example/x"
      ∧ (writeBody evU 5).description = "Ticket: https://tickets.example/x" :=
  ⟨by decide, by decide, by decide, by decide, by decide, by decide, by decide⟩

/-- Claim C8, corrected.  The claim as frozen fails (see `uct_c8_cex`):
only the preceding-node scan applies the full acceptance rule; the
following-sibling fallback accepts any text longer than 5 characters with
no anchor-phrase or month rejection, and the heading fallback any text
longer than 4.  Amended statement: every produced title comes from one of
the three stages in order, the preceding-node stage guaranteeing the full
rule (length above 5, at most two lines, printable, no anchor phrase, not
a month abbreviation) and the two fallbacks guaranteeing only their
length thresholds. -/
theorem uct_c8_title_rules_amended (b : Block) (t : String) (h : findTitle b = some t) :
    (titlePrev b = some t ∧ t.length > 5 ∧ linesCount t ≤ 2 ∧ isPrintableA t = true
        ∧ containsSub t "Doors:" = false ∧ containsSub t "Show:" = false
        ∧ MONTH_UP.contains (upperStr t) = false)
      ∨ (titlePrev b = none ∧ titleSib b = some t ∧ t.length > 5)
      ∨ (titlePrev b = none ∧ titleSib b = none ∧ titleHead b = some t ∧ t.length > 4) := by
  unfold findTitle at h
  cases hP : titlePrev b with
  | some t0 =>
    rw [hP] at h
    cases h
    left
    have hacc := List.find?_some hP
    unfold acceptPrev at hacc
    simp only [Bool.and_eq_true, Bool.not_eq_true', decide_eq_true_eq, beq_eq_false_iff_ne,
      ne_eq] at hacc
    obtain ⟨⟨⟨⟨⟨⟨⟨_, h2⟩, h3⟩, h4⟩, h5⟩, h6⟩, h7⟩, h8⟩ := hacc
    exact ⟨rfl, h7, h8, h3, h4, h5, by simpa using h6⟩
  | none =>
    rw [hP] at h
    cases hS : titleSib b with
    | some t0 =>
      rw [hS] at h
      cases h
      right; left
      have hacc := List.find?_some hS
      simp only [Bool.and_eq_true, Bool.not_eq_true', decide_eq_true_eq] at hacc
      exact ⟨rfl, rfl, hacc.2⟩
    | none =>
      rw [hS] at h
      right; right
      have hacc := List.find?_some h
      simp only [Bool.and_eq_true, Bool.not_eq_true', decide_eq_true_eq] at hacc
      exact ⟨rfl, rfl, h, hacc.2⟩

/-- Witness for the amended C8: `blockA`'s title comes from the
preceding-node stage and satisfies the full rule. -/
theorem uct_c8_title_rules_amended_witness :
    findTitle blockA = some "Midnight Revue"
      ∧ ((titlePrev blockA = some "Midnight Revue" ∧ "Midnight Revue".length > 5
            ∧ linesCount "Midnight Revue" ≤ 2 ∧ isPrintableA "Midnight Revue" = true
            ∧ containsSub "Midnight Revue" "Doors:" = false
            ∧ containsSub "Midnight Revue" "Show:" = false
            ∧ MONTH_UP.contains (upperStr "Midnight Revue") = false)
          ∨ (titlePrev blockA = none ∧ titleSib blockA = some "Midnight Revue"
              ∧ "Midnight Revue".length > 5)
          ∨ (titlePrev blockA = none ∧ titleSib blockA = none
              ∧ titleHead blockA = some "Midnight Revue" ∧ "Midnight Revue".length > 4)) :=
  ⟨by decide, uct_c8_title_rules_amended blockA "Midnight Revue" (by decide)⟩

/-- Claim C8, counterexample to the frozen statement: with no acceptable
preceding text, the sibling fallback accepts a text containing the anchor
phrase `"Doors:"` as the title. -/
theorem uct_c8_cex :
    findTitle blockSib = some "Doors: 7:00 pm tonight"
      ∧ containsSub "Doors: 7:00 pm tonight" "Doors:" = true :=
  ⟨by decide, by decide⟩

theorem dedupInsert_mem_self (acc : List ExtractedEvent) (x : ExtractedEvent) :
    x ∈ dedupInsert acc x := by
  unfold dedupInsert
  by_cases h : acc.any (fun y => y.private_id == x.private_id) = true
  · rw [if_pos h]
    obtain ⟨z, hz, hzp⟩ := List.any_eq_true.mp h
    exact List.mem_map.mpr ⟨z, hz, by simp [hzp]⟩
  · rw [if_neg h]
    exact List.mem_append_right _ (List.mem_singleton_self _)

theorem dedupInsert_mem {acc : List ExtractedEvent} {x e' : ExtractedEvent}
    (h : e' ∈ dedupInsert acc x) :
    e' = x ∨ (e' ∈ acc ∧ ¬ e'.private_id = x.private_id) := by
  unfold dedupInsert at h
  by_cases hc : acc.any (fun y => y.private_id == x.private_id) = true
  · rw [if_pos hc] at h
    obtain ⟨z, hz, hze⟩ := List.mem_map.mp h
    by_cases hzp : (z.private_id == x.private_id) = true
    · rw [if_pos hzp] at hze
      left
      exact hze.symm
    · rw [if_neg hzp] at hze
      right
      rw [← hze]
      exact ⟨hz, by simpa using hzp⟩
  · rw [if_neg hc] at h
    rcases List.mem_append.mp h with h | h
    · right
      refine ⟨h, fun heq => hc ?_⟩
      exact List.any_eq_true.mpr ⟨e', h, by simp [heq]⟩
    · left
      simpa using h

theorem dedupInsert_fp_mem {acc : List ExtractedEvent} (x : ExtractedEvent) {f : String}
    (h : ∃ e' ∈ acc, e'.private_id = f) :
    ∃ e' ∈ dedupInsert acc x, e'.private_id = f := by
  obtain ⟨e0, h0, hf⟩ := h
  unfold dedupInsert
  by_cases hc : acc.any (fun y => y.private_id == x.private_id) = true
  · rw [if_pos hc]
    by_cases hp : (e0.private_id == x.private_id) = true
    · refine ⟨x, List.mem_map.mpr ⟨e0, h0, by simp [hp]⟩, ?_⟩
      rw [← beq_iff_eq.mp hp]
      exact hf
    · exact ⟨e0, List.mem_map.mpr ⟨e0, h0, by simp [hp]⟩, hf⟩
  · rw [if_neg hc]
    exact ⟨e0, List.mem_append_left _ h0, hf⟩

theorem dedupInsert_pairwise {acc : List ExtractedEvent} (x : ExtractedEvent)
    (h : acc.Pairwise (fun a b => a.private_id ≠ b.private_id)) :
    (dedupInsert acc x).Pairwise (fun a b => a.private_id ≠ b.private_id) := by
  unfold dedupInsert
  by_cases hc : acc.any (fun y => y.private_id == x.private_id) = true
  · rw [if_pos hc]
    have hfp : ∀ z : ExtractedEvent, ((fun y : ExtractedEvent =>
        if y.private_id == x.private_id then x else y) z).private_id = z.private_id := by
      intro z
      by_cases hz : (z.private_id == x.private_id) = true
      · simp only [hz, if_true]
        exact (beq_iff_eq.mp hz).symm
      · simp [hz]
    exact h.map _ (fun a b hab => by rw [hfp a, hfp b]; exact hab)
  · rw [if_neg hc]
    rw [List.pairwise_append]
    refine ⟨h, by simp, ?_⟩
    intro a ha b hb
    simp only [List.mem_singleton] at hb
    subst hb
    intro heq
    exact hc (List.any_eq_true.mpr ⟨a, ha, by simp [heq]⟩)

theorem dedupInsert_last {processed acc : List ExtractedEvent} (x : ExtractedEvent)
    (hlast : ∀ e' ∈ acc,
      processed.reverse.find? (fun w => w.private_id == e'.private_id) = some e') :
    ∀ e' ∈ dedupInsert acc x,
      (processed ++ [x]).reverse.find? (fun w => w.private_id == e'.private_id) = some e' := by
  intro e' he'
  have hrev : (processed ++ [x]).reverse = x :: processed.reverse := by simp
  rw [hrev]
  rcases dedupInsert_mem he' with he' | ⟨hmem, hne⟩
  · subst he'
    exact List.find?_cons_of_pos _ (by simp)
  · rw [List.find?_cons_of_neg _ (by simp; exact fun hx => hne hx.symm)]
    exact hlast e' hmem

theorem dedup_loop_inv : ∀ (rest processed acc : List ExtractedEvent),
    acc.Pairwise (fun a b => a.private_id ≠ b.private_id) →
    (∀ e ∈ processed, ∃ e' ∈ acc, e'.private_id = e.private_id) →
    (∀ e' ∈ acc,
      processed.reverse.find? (fun w => w.private_id == e'.private_id) = some e') →
      (rest.foldl dedupInsert acc).Pairwise (fun a b => a.private_id ≠ b.private_id)
        ∧ (∀ e ∈ processed ++ rest,
            ∃ e' ∈ rest.foldl dedupInsert acc, e'.private_id = e.private_id)
        ∧ ∀ e' ∈ rest.foldl dedupInsert acc,
            (processed ++ rest).reverse.find?
              (fun w => w.private_id == e'.private_id) = some e' := by
  intro rest
  induction rest with
  | nil =>
    intro processed acc h1 h2 h3
    simpa using ⟨h1, h2, h3⟩
  | cons x rest ih =>
    intro processed acc h1 h2 h3
    have hcov : ∀ e ∈ processed ++ [x], ∃ e' ∈ dedupInsert acc x,
        e'.private_id = e.private_id := by
      intro e he
      rcases List.mem_append.mp he with he | he
      · exact dedupInsert_fp_mem x (h2 e he)
      · simp only [List.mem_singleton] at he
        subst he
        exact ⟨e, dedupInsert_mem_self acc e, rfl⟩
    have step := ih (processed ++ [x]) (dedupInsert acc x)
      (dedupInsert_pairwise x h1) hcov (dedupInsert_last x h3)
    have hassoc : (processed ++ [x]) ++ rest = processed ++ x :: rest := by simp
    rw [hassoc] at step
    exact step

theorem dedup_pairwise (es : List ExtractedEvent) :
    (dedup es).Pairwise (fun a b => a.private_id ≠ b.private_id) :=
  (dedup_loop_inv es [] [] (by simp) (by simp) (by simp)).1

theorem dedup_cover_last (es : List ExtractedEvent) (e : ExtractedEvent) (he : e ∈ es) :
    ∃ e' ∈ dedup es, e'.private_id = e.private_id
      ∧ es.reverse.find? (fun w => w.private_id == e.private_id) = some e' := by
  obtain ⟨_, hcov, hlast⟩ := dedup_loop_inv es [] [] (by simp) (by simp) (by simp)
  obtain ⟨e', he', hfp⟩ := hcov e (by simpa using he)
  refine ⟨e', he', hfp, ?_⟩
  have h := hlast e' he'
  simp only [List.nil_append] at h
  have hfun : (fun w : ExtractedEvent => w.private_id == e.private_id)
      = (fun w : ExtractedEvent => w.private_id == e'.private_id) := by
    funext w
    rw [hfp]
  rw [hfun]
  exact h

/-- Claim C3, confirmed.  The fingerprint of an extracted event is the
deterministic hash of its trimmed title concatenated (with the `"|"`
separator) with the ISO-8601 form of its start — a pure function of those
two values; the dedup keeps exactly one record per distinct fingerprint;
every input fingerprint survives and its representative is the last event
with that fingerprint in traversal order; the event list that
`parse_event_blocks` returns never holds two entries with one
fingerprint. -/
theorem uct_c3_fingerprint_dedup :
    (∀ (rawTitle : String) (s : LDT),
        (mkEvent rawTitle s).private_id = stripStr rawTitle ++ "|" ++ isoStr s
          ∧ (mkEvent rawTitle s).title = stripStr rawTitle)
      ∧ (∀ (r1 r2 : String) (s1 s2 : LDT), stripStr r1 = stripStr r2 → s1 = s2 →
          (mkEvent r1 s1).private_id = (mkEvent r2 s2).private_id)
      ∧ (∀ es : List ExtractedEvent,
          (dedup es).Pairwise (fun a b => a.private_id ≠ b.private_id))
      ∧ (∀ (es : List ExtractedEvent) (e : ExtractedEvent), e ∈ es →
          ∃ e' ∈ dedup es, e'.private_id = e.private_id
            ∧ es.reverse.find? (fun w => w.private_id == e.private_id) = some e')
      ∧ (∀ (now : LDT) (bs : List Block) (evs : List ExtractedEvent) (ds : List Diag),
          parse_event_blocks now bs = Except.ok (evs, ds) →
            evs.Pairwise (fun a b => a.private_id ≠ b.private_id)) := by
  refine ⟨fun rawTitle s => ⟨rfl, rfl⟩, ?_, dedup_pairwise, dedup_cover_last, ?_⟩
  · intro r1 r2 s1 s2 ht hs
    unfold mkEvent
    rw [ht, hs]
  · intro now bs evs ds h
    unfold parse_event_blocks at h
    cases hpl : parseLoop now bs [] [] with
    | error u => rw [hpl] at h; cases h
    | ok p =>
      rw [hpl] at h
      obtain ⟨evs0, ds0⟩ := p
      dsimp only at h
      injection h with h1
      have h2 : dedup evs0 = evs := congrArg Prod.fst h1
      rw [← h2]
      exact dedup_pairwise evs0

/-- Witness for C3: of two events sharing a fingerprint but differing in
their payload, dedup keeps exactly the later one. -/
theorem uct_c3_fingerprint_dedup_witness :
    (dedup [dupF, dupG]).Pairwise (fun a b => a.private_id ≠ b.private_id)
      ∧ (∃ e' ∈ dedup [dupF, dupG], e'.private_id = dupF.private_id
          ∧ [dupF, dupG].reverse.find?
              (fun w => w.private_id == dupF.private_id) = some e')
      ∧ dedup [dupF, dupG] = [dupG] :=
  ⟨uct_c3_fingerprint_dedup.2.2.1 [dupF, dupG],
    uct_c3_fingerprint_dedup.2.2.2.1 [dupF, dupG] dupF (by decide),
    by decide⟩
